import Mathlib

/-!
Verification development for the benchmark aggregation and reporting scripts
of the HighPerformanceComputing repository (assignment1/a, assignment1/b,
assignment1/d).  The Python scripts are shallowly embedded: CSV rows become
records whose numeric fields are already parsed (integers as Nat, seconds as
the rationals), Python dicts become association lists in insertion order
(assignment preserves the position of an existing key and appends a new key
at the end, exactly like a Python dict), pandas groupby becomes sorted
deduplicated keys with per-key filters, and Series.idxmin becomes a fold
keeping the first record attaining the minimum.  Python string comparison is
embedded as lexicographic comparison of code-point sequences (lexNat/strLe),
because the built-in String order of Lean does not reduce in the kernel.
-/

namespace HPC

/-- Lexicographic comparison of code-point sequences: the order Python uses
when comparing strings (shorter prefix first, then pointwise by code point). -/
def lexNat : List Nat → List Nat → Bool
  | [], _ => true
  | _ :: _, [] => false
  | a :: as, b :: bs => if a < b then true else if b < a then false else lexNat as bs

/-- Python string comparison, as code-point lexicographic order on the
character data of the two strings. -/
def strLe (a b : String) : Bool := lexNat (a.data.map Char.toNat) (b.data.map Char.toNat)

/-- The proposition form of strLe, used as the sorting relation for labels. -/
def strLeP (a b : String) : Prop := strLe a b = true

instance : DecidableRel strLeP :=
  fun a b => inferInstanceAs (Decidable (strLe a b = true))

/-- Python dict lookup d.get(k): first binding of the key in the association
list, if any. -/
def lookupD {K V : Type} [DecidableEq K] (k : K) : List (K × V) → Option V
  | [] => none
  | (k', v) :: t => if k = k' then some v else lookupD k t

/-- Python dict assignment d[k] = v: an existing key keeps its position and
gets the new value, a new key is appended at the end (insertion order). -/
def setKey {K V : Type} [DecidableEq K] (k : K) (v : V) : List (K × V) → List (K × V)
  | [] => [(k, v)]
  | (k', v') :: t => if k = k' then (k', v) :: t else (k', v') :: setKey k v t

/-- Python d.get(k, []) for dicts whose values are lists. -/
def getDl {K : Type} {A : Type} [DecidableEq K] (k : K) (d : List (K × List A)) : List A :=
  (lookupD k d).getD []

/-- Python "if k not in d: d[k] = []; d[k].append(x)": append x to the list
bucket of k, creating the bucket at the end of the dict if the key is new. -/
def insertApp {K : Type} {A : Type} [DecidableEq K] (k : K) (x : A)
    (d : List (K × List A)) : List (K × List A) :=
  setKey k (getDl k d ++ [x]) d

/-- One row of results.csv as read by assignment1/a (generate_report.py lines
11-22 and plot_results.py lines 11-22): the loader parses N and threads as
integers and sec as a float and keeps the pattern string; numeric parsing is
abstracted into already-typed fields. -/
structure ARow where
  pattern : String
  N : Nat
  threads : Nat
  sec : ℚ
deriving DecidableEq

/-- The CSV reading loop of assignment1/a (both scripts, lines 11-19): every
successfully parsed row is appended to the data list, with no validation of
the sec field whatsoever. -/
def loadData (rows : List ARow) : List ARow :=
  rows.foldl (fun acc r => acc ++ [r]) []

/-- Line 27 of generate_report.py: all_ns = sorted(list(set(d['N'] for d in data))). -/
def allNs (data : List ARow) : List Nat :=
  List.insertionSort (· ≤ ·) (data.map (fun r => r.N)).dedup

/-- Line 28 of generate_report.py: patterns = sorted(list(set(d['pattern'] for d in data))). -/
def patternsOf (data : List ARow) : List String :=
  List.insertionSort strLeP (data.map (fun r => r.pattern)).dedup

/-- Line 51 of generate_report.py: max_n = max(all_ns) (0 on empty data,
where the script would instead crash). -/
def maxN (data : List ARow) : Nat :=
  (data.map (fun r => r.N)).foldl Nat.max 0

/-- Nested dict assignment of generate_report.py lines 33-35 and 46-48:
ensure data[pattern] exists, then data[pattern][N] = sec (later rows with the
same pattern and N overwrite the stored sec). -/
def patAssign (d : List (String × List (Nat × ℚ))) (r : ARow) :
    List (String × List (Nat × ℚ)) :=
  setKey r.pattern (setKey r.N r.sec (getDl r.pattern d)) d

/-- Lines 30-35 of generate_report.py: single_thread_data, the pattern -> {N -> sec}
dict built from the rows with threads == 1 in encounter order. -/
def singleThreadData (data : List ARow) : List (String × List (Nat × ℚ)) :=
  data.foldl (fun d r => if r.threads = 1 then patAssign d r else d) []

/-- Line 38 of generate_report.py: thread_counts = sorted(set of threads > 1). -/
def threadCounts (data : List ARow) : List Nat :=
  List.insertionSort (· ≤ ·)
    ((data.filter (fun r => decide (1 < r.threads))).map (fun r => r.threads)).dedup

/-- Lines 41-48 of generate_report.py: multi_thread_data, one pattern -> {N -> sec}
dict per thread count, each built by a pass over the full data filtered to
that thread count. -/
def multiThreadData (data : List ARow) : List (Nat × List (String × List (Nat × ℚ))) :=
  (threadCounts data).map
    (fun t => (t, data.foldl (fun d r => if r.threads = t then patAssign d r else d) []))

/-- One step of the best-time loops (generate_report.py lines 53-58 and
plot_results.py lines 82-87): a row at the target size replaces the stored
best for its pattern only when strictly smaller, so the first row attaining
the minimum wins ties. -/
def bestStep (m : Nat) (bt : List (String × ℚ)) (r : ARow) : List (String × ℚ) :=
  if r.N = m then
    match lookupD r.pattern bt with
    | none => setKey r.pattern r.sec bt
    | some cur => if r.sec < cur then setKey r.pattern r.sec bt else bt
  else bt

/-- Best time per pattern among the rows at size m (the shared shape of both
assignment1/a best-time loops). -/
def bestAt (m : Nat) (data : List ARow) : List (String × ℚ) :=
  data.foldl (bestStep m) []

/-- Lines 50-58 of generate_report.py: best times taken only at the maximum
observed size. -/
def bestTimesA (data : List ARow) : List (String × ℚ) :=
  bestAt (maxN data) data

/-- Lines 79-87 of plot_results.py (assignment1/a): best times taken only at
the hardcoded size n_target = 2048. -/
def bestTimesP (data : List ARow) : List (String × ℚ) :=
  bestAt 2048 data

/-- Lines 61-80 of generate_report.py: get_datasets builds, for each pattern
present in the source dict (in the order of the sorted pattern list), the
parallel array [source_data[p].get(n, None) for n in all_ns].  The color,
fill and tension attributes attached to each dataset are presentation
constants and are not modelled. -/
def getDatasets (pats : List String) (ns : List Nat) (src : List (String × List (Nat × ℚ))) :
    List (String × List (Option ℚ)) :=
  pats.filterMap
    (fun p => (lookupD p src).map (fun inner => (p, ns.map (fun n => lookupD n inner))))

/-- Line 82 of generate_report.py: the single-thread chart datasets. -/
def singleThreadDatasets (data : List ARow) : List (String × List (Option ℚ)) :=
  getDatasets (patternsOf data) (allNs data) (singleThreadData data)

/-- One step of the grouping loop of plot_results.py (assignment1/a) lines
27-39: append (N, sec) to data_by_thread[threads][pattern], creating the
nested dicts on demand. -/
def dbtStep (D : List (Nat × List (String × List (Nat × ℚ)))) (r : ARow) :
    List (Nat × List (String × List (Nat × ℚ))) :=
  setKey r.threads (insertApp r.pattern (r.N, r.sec) (getDl r.threads D)) D

/-- Lines 24-39 of plot_results.py (assignment1/a): data_by_thread, the
two-level grouping threads -> pattern -> list of (N, sec) in encounter order. -/
def dataByThread (data : List ARow) : List (Nat × List (String × List (Nat × ℚ))) :=
  data.foldl dbtStep []

/-- All (pattern, N -> sec or (N, sec)) entries of one thread bucket, tagged
with their keys. -/
def flatPD (t : Nat) (pd : List (String × List (Nat × ℚ))) : List (Nat × String × Nat × ℚ) :=
  (pd.map (fun pg => pg.2.map (fun y => (t, pg.1, y.1, y.2)))).flatten

/-- Flattening of a two-level grouping: every stored (N, sec) entry tagged
with its thread count and pattern key. -/
def flattenDBT (D : List (Nat × List (String × List (Nat × ℚ)))) :
    List (Nat × String × Nat × ℚ) :=
  (D.map (fun tp => flatPD tp.1 tp.2)).flatten

/-- The group of key (t, p) in a two-level grouping. -/
def bucket2 (t : Nat) (p : String) (D : List (Nat × List (String × List (Nat × ℚ)))) :
    List (Nat × ℚ) :=
  getDl p (getDl t D)

/-- The key-tagged projection of a row, for stating multiset preservation. -/
def projA (r : ARow) : Nat × String × Nat × ℚ :=
  (r.threads, r.pattern, r.N, r.sec)

/-- One row of the combined dataframe of assignment1/b plot_best_time.py
(results.csv and results_optimized.csv with the version label of lines 8-9):
pattern is the numeric pattern code of the CSVs. -/
structure BRow where
  pattern : Nat
  N : Nat
  threads : Nat
  sec : ℚ
  version : String
deriving DecidableEq

/-- Lines 15-22 of plot_best_time.py (and lines 10-17 of plot_histograms.py,
8-15 of plot_results.py of assignment1/b): the fixed pattern-code-to-name
mapping; any code outside 0..5 maps to a missing name (NaN in pandas). -/
def patternNames (c : Nat) : Option String :=
  if c = 0 then some "row_major_rows_per_thread"
  else if c = 1 then some "col_major"
  else if c = 2 then some "blocked_32"
  else if c = 3 then some "linear_flat"
  else if c = 4 then some "cyclic_rows"
  else if c = 5 then some "unroll4"
  else none

/-- Lines 26-27 of plot_best_time.py: keep only the required N values. -/
def bfilter (df : List BRow) : List BRow :=
  df.filter (fun r => decide (r.N = 256 ∨ r.N = 512 ∨ r.N = 1024 ∨ r.N = 2048))

/-- A row whose pattern code is in the mapping (its pattern_name is not NaN). -/
def knownB (r : BRow) : Bool :=
  (patternNames r.pattern).isSome

/-- The (N, pattern_name) key contributed by each kept row with a known
pattern code; pandas groupby drops rows whose key contains NaN. -/
def keysRaw (df : List BRow) : List (Nat × String) :=
  (bfilter df).filterMap (fun r => (patternNames r.pattern).map (fun p => (r.N, p)))

/-- Tuple order on group keys: pandas groupby iterates keys sorted ascending,
tuples compared componentwise (N first, then the name string). -/
def keyLe (a b : Nat × String) : Prop :=
  a.1 < b.1 ∨ (a.1 = b.1 ∧ strLeP a.2 b.2)

instance : DecidableRel keyLe :=
  fun a b => inferInstanceAs (Decidable (a.1 < b.1 ∨ (a.1 = b.1 ∧ strLeP a.2 b.2)))

/-- The sorted, deduplicated group keys of the groupby on (N, pattern_name)
at line 31 of plot_best_time.py. -/
def groupKeys (df : List BRow) : List (Nat × String) :=
  List.insertionSort keyLe (keysRaw df).dedup

/-- The group of rows behind key (n, p): the kept rows at size n whose
pattern code maps to name p, in encounter order. -/
def bgroup (df : List BRow) (n : Nat) (p : String) : List BRow :=
  (bfilter df).filter (fun r => decide (r.N = n ∧ patternNames r.pattern = some p))

/-- One comparison step of Series.idxmin: keep the current best unless the
next value is strictly smaller, so the first occurrence of the minimum wins. -/
def pick (b x : BRow) : BRow :=
  if x.sec < b.sec then x else b

/-- Series.idxmin at line 32 of plot_best_time.py: the first row of the group
attaining the minimal sec (none only on an empty group, which pandas groupby
never produces). -/
def selectBest : List BRow → Option BRow
  | [] => none
  | r :: rs => some (rs.foldl pick r)

/-- One row of the best_times summary built at lines 33-38 of
plot_best_time.py. -/
structure BestRow where
  N : Nat
  pattern_name : String
  best_time_sec : ℚ
  best_version : String
deriving DecidableEq

/-- The sort key of line 40 of plot_best_time.py:
sort_values(["N", "best_time_sec"]). -/
def rowLe (a b : BestRow) : Prop :=
  a.N < b.N ∨ (a.N = b.N ∧ a.best_time_sec ≤ b.best_time_sec)

instance : DecidableRel rowLe :=
  fun a b => inferInstanceAs (Decidable (a.N < b.N ∨ (a.N = b.N ∧ a.best_time_sec ≤ b.best_time_sec)))

/-- Lines 30-38 of plot_best_time.py: one summary row per group, carrying the
sec and version of the idxmin row of that group. -/
def bestRows (df : List BRow) : List BestRow :=
  (groupKeys df).filterMap
    (fun k => (selectBest (bgroup df k.1 k.2)).map
      (fun r => ⟨k.1, k.2, r.sec, r.version⟩))

/-- Line 40 of plot_best_time.py: the summary table sorted by (N, best time). -/
def bestTimesSorted (df : List BRow) : List BestRow :=
  List.insertionSort rowLe (bestRows df)

/-- Lines 32-40 of plot_histograms.py (assignment1/b): the sec values of one
dataframe at size n whose pattern code maps to the name pname. -/
def histVals (df : List BRow) (n : Nat) (pname : String) : List ℚ :=
  (df.filter (fun r => decide (r.N = n ∧ patternNames r.pattern = some pname))).map
    (fun r => r.sec)

/-- One row of matmul_results.csv as read by assignment1/d plot_results.py:
the Speedup, Efficiency and GFLOPS columns come precomputed from the
benchmark, the script only reads them. -/
structure DRow where
  Method : String
  MatrixSize : Nat
  Threads : Nat
  TimeSeconds : ℚ
  Speedup : ℚ
  Efficiency : ℚ
  GFLOPS : ℚ
deriving DecidableEq

/-- pandas Series.unique as used at line 41 of plot_results.py
(assignment1/d): the distinct values in order of first appearance. -/
def uniqueFirst (l : List String) : List String :=
  l.foldl (fun acc x => if x ∈ acc then acc else acc ++ [x]) []

/-- methods = df['Method'].unique(): the series labels of the assignment1/d
report, in encounter order. -/
def methodsOf (df : List DRow) : List String :=
  uniqueFirst (df.map (fun r => r.Method))

/-- largest_size = df['MatrixSize'].max() (0 on empty data). -/
def maxSizeOf (df : List DRow) : Nat :=
  (df.map (fun r => r.MatrixSize)).foldl Nat.max 0

/-- max_threads = df['Threads'].max() (0 on empty data). -/
def maxThreadsOf (df : List DRow) : Nat :=
  (df.map (fun r => r.Threads)).foldl Nat.max 0

/-- The TimeSeconds values selected at lines 430-431 of plot_results.py
(assignment1/d): subset rows of one method at one size and thread count. -/
def tsValues (df : List DRow) (size : Nat) (m : String) (t : Nat) : List ℚ :=
  (df.filter (fun r => decide (r.MatrixSize = size ∧ r.Method = m ∧ r.Threads = t))).map
    (fun r => r.TimeSeconds)

/-- One line of comparison method 1 of generate_text_report (lines 429-433):
t1 and tn are read with .values[0], which raises IndexError when the
selection is empty; the failure is modelled as none. -/
def method1Line (df : List DRow) (largest maxT : Nat) (m : String) :
    Option (String × ℚ × ℚ × ℚ) :=
  match (tsValues df largest m 1).head?, (tsValues df largest m maxT).head? with
  | some t1, some tn => some (m, t1, tn, ((t1 - tn) / t1) * 100)
  | _, _ => none

/-- Mapping a fallible computation over a list, failing as a whole as soon as
one element fails: an uncaught Python exception aborts the whole loop. -/
def mapOpt {α β : Type} (f : α → Option β) : List α → Option (List β)
  | [] => some []
  | x :: t =>
    match f x with
    | none => none
    | some y => (mapOpt f t).map (fun ys => y :: ys)

/-- The execution-time section of generate_text_report (lines 428-433 of
assignment1/d plot_results.py): one line per method at the largest size; a
method with no baseline (threads == 1) row there aborts the whole report. -/
def textReportM1 (df : List DRow) : Option (List (String × ℚ × ℚ × ℚ)) :=
  mapOpt (method1Line df (maxSizeOf df) (maxThreadsOf df)) (methodsOf df)

/-- The rational one half, written as a raw fraction so that it evaluates in
the kernel (0.5 in the tie-break scenario of the spec). -/
def halfQ : ℚ := ⟨1, 2, by decide, by decide⟩

/-- Example input for the best-times summary: two trials of pattern code 0 at
size 256, the optimized one faster. -/
def c1df : List BRow := [⟨0, 256, 1, 2, "unoptimized"⟩, ⟨0, 256, 2, 1, "optimized"⟩]

/-- The summary row the best-times extraction produces on c1df. -/
def c1row : BestRow := ⟨256, "row_major_rows_per_thread", 1, "optimized"⟩

/-- Tie scenario of the spec: two records with identical group key and
elapsed 0.5 each. -/
def c2g : List BRow := [⟨0, 256, 1, halfQ, "unoptimized"⟩, ⟨0, 256, 1, halfQ, "optimized"⟩]

/-- The first-encountered record of the tie scenario. -/
def c2r : BRow := ⟨0, 256, 1, halfQ, "unoptimized"⟩

/-- Two records sharing (threads, pattern, N) but with different times. -/
def c3data : List ARow := [⟨"p", 4, 2, 1⟩, ⟨"p", 4, 2, 2⟩]

/-- A method present at threads 2 and 4 of the largest size but with no
baseline threads == 1 row. -/
def c5df : List DRow := [⟨"m", 8, 2, 3, 0, 0, 0⟩, ⟨"m", 8, 4, 2, 0, 0, 0⟩]

/-- A record whose elapsed time is zero. -/
def c6data : List ARow := [⟨"p", 4, 1, 0⟩]

/-- Two methods encountered in non-lexicographic order. -/
def c7df : List DRow := [⟨"b", 8, 1, 1, 0, 0, 0⟩, ⟨"a", 8, 1, 1, 0, 0, 0⟩]

/-- Duplicate (pattern, N, threads) records, in one order. -/
def c8a : List ARow := [⟨"p", 4, 1, 1⟩, ⟨"p", 4, 1, 2⟩]

/-- The same records in the other order. -/
def c8b : List ARow := [⟨"p", 4, 1, 2⟩, ⟨"p", 4, 1, 1⟩]

/-- A duplicate-free record pair, in one order. -/
def c8w1 : List ARow := [⟨"a", 1, 1, 1⟩, ⟨"b", 2, 2, 1⟩]

/-- The same duplicate-free records, reordered. -/
def c8w2 : List ARow := [⟨"b", 2, 2, 1⟩, ⟨"a", 1, 1, 1⟩]

/-- A dataframe holding one known pattern code and one unknown code 9. -/
def c9df : List BRow := [⟨0, 256, 1, 1, "unoptimized"⟩, ⟨9, 256, 1, 1, "unoptimized"⟩]

theorem lexNat_cons_iff (a b : Nat) (as bs : List Nat) :
    lexNat (a :: as) (b :: bs) = true ↔ a < b ∨ (a = b ∧ lexNat as bs = true) := by
  simp only [lexNat]
  split_ifs with h1 h2
  · simp [h1]
  · simp only [Bool.false_eq_true, false_iff]
    rintro (h | ⟨h, _⟩) <;> omega
  · have hab : a = b := by omega
    simp [hab]

theorem lexNat_total : ∀ x y : List Nat, lexNat x y = true ∨ lexNat y x = true
  | [], _ => Or.inl rfl
  | _ :: _, [] => Or.inr rfl
  | a :: as, b :: bs => by
    rcases Nat.lt_trichotomy a b with h | h | h
    · exact Or.inl ((lexNat_cons_iff a b as bs).mpr (Or.inl h))
    · rcases lexNat_total as bs with ht | ht
      · exact Or.inl ((lexNat_cons_iff a b as bs).mpr (Or.inr ⟨h, ht⟩))
      · exact Or.inr ((lexNat_cons_iff b a bs as).mpr (Or.inr ⟨h.symm, ht⟩))
    · exact Or.inr ((lexNat_cons_iff b a bs as).mpr (Or.inl h))

theorem lexNat_trans : ∀ x y z : List Nat,
    lexNat x y = true → lexNat y z = true → lexNat x z = true
  | [], _, _, _, _ => rfl
  | _ :: _, [], _, h1, _ => by simp [lexNat] at h1
  | _ :: _, _ :: _, [], _, h2 => by simp [lexNat] at h2
  | a :: as, b :: bs, c :: cs, h1, h2 => by
    rw [lexNat_cons_iff] at h1 h2 ⊢
    rcases h1 with h1 | ⟨h1e, h1r⟩
    · rcases h2 with h2 | ⟨h2e, _⟩
      · exact Or.inl (Nat.lt_trans h1 h2)
      · exact Or.inl (h2e ▸ h1)
    · rcases h2 with h2 | ⟨h2e, h2r⟩
      · exact Or.inl (h1e ▸ h2)
      · exact Or.inr ⟨h1e.trans h2e, lexNat_trans as bs cs h1r h2r⟩

theorem lexNat_antisymm : ∀ x y : List Nat,
    lexNat x y = true → lexNat y x = true → x = y
  | [], [], _, _ => rfl
  | [], _ :: _, _, h2 => by simp [lexNat] at h2
  | _ :: _, [], h1, _ => by simp [lexNat] at h1
  | a :: as, b :: bs, h1, h2 => by
    rw [lexNat_cons_iff] at h1 h2
    rcases h1 with h1 | ⟨h1e, h1r⟩
    · rcases h2 with h2 | ⟨h2e, _⟩ <;> omega
    · rcases h2 with h2 | ⟨_, h2r⟩
      · omega
      · rw [h1e, lexNat_antisymm as bs h1r h2r]

theorem char_toNat_injective : Function.Injective Char.toNat := by
  intro c₁ c₂ h
  exact Char.ext (UInt32.ext h)

theorem strLeP_total (a b : String) : strLeP a b ∨ strLeP b a :=
  lexNat_total _ _

theorem strLeP_trans (a b c : String) : strLeP a b → strLeP b c → strLeP a c :=
  lexNat_trans _ _ _

theorem strLeP_antisymm (a b : String) : strLeP a b → strLeP b a → a = b := by
  intro h1 h2
  have hd := lexNat_antisymm _ _ h1 h2
  have hdata : a.data = b.data := List.map_injective_iff.mpr char_toNat_injective hd
  cases a; cases b
  exact congrArg String.mk hdata

instance : IsTotal String strLeP := ⟨strLeP_total⟩

instance : IsTrans String strLeP := ⟨strLeP_trans⟩

instance : IsAntisymm String strLeP := ⟨strLeP_antisymm⟩

instance : IsTotal (Nat × String) keyLe := by
  constructor
  intro a b
  rcases Nat.lt_trichotomy a.1 b.1 with h | h | h
  · exact Or.inl (Or.inl h)
  · rcases strLeP_total a.2 b.2 with hs | hs
    · exact Or.inl (Or.inr ⟨h, hs⟩)
    · exact Or.inr (Or.inr ⟨h.symm, hs⟩)
  · exact Or.inr (Or.inl h)

instance : IsTrans (Nat × String) keyLe := by
  constructor
  intro a b c h1 h2
  rcases h1 with h1 | ⟨h1e, h1s⟩
  · rcases h2 with h2 | ⟨h2e, _⟩
    · exact Or.inl (Nat.lt_trans h1 h2)
    · exact Or.inl (h2e ▸ h1)
  · rcases h2 with h2 | ⟨h2e, h2s⟩
    · exact Or.inl (h1e ▸ h2)
    · exact Or.inr ⟨h1e.trans h2e, strLeP_trans _ _ _ h1s h2s⟩

instance : IsTotal BestRow rowLe := by
  constructor
  intro a b
  rcases Nat.lt_trichotomy a.N b.N with h | h | h
  · exact Or.inl (Or.inl h)
  · rcases le_total a.best_time_sec b.best_time_sec with hs | hs
    · exact Or.inl (Or.inr ⟨h, hs⟩)
    · exact Or.inr (Or.inr ⟨h.symm, hs⟩)
  · exact Or.inr (Or.inl h)

instance : IsTrans BestRow rowLe := by
  constructor
  intro a b c h1 h2
  rcases h1 with h1 | ⟨h1e, h1s⟩
  · rcases h2 with h2 | ⟨h2e, _⟩
    · exact Or.inl (Nat.lt_trans h1 h2)
    · exact Or.inl (h2e ▸ h1)
  · rcases h2 with h2 | ⟨h2e, h2s⟩
    · exact Or.inl (h1e ▸ h2)
    · exact Or.inr ⟨h1e.trans h2e, le_trans h1s h2s⟩

theorem lookupD_setKey {K V : Type} [DecidableEq K] (k k' : K) (v : V) (d : List (K × V)) :
    lookupD k (setKey k' v d) = if k = k' then some v else lookupD k d := by
  induction d with
  | nil =>
    simp only [setKey, lookupD]
  | cons kv t ih =>
    obtain ⟨k0, v0⟩ := kv
    by_cases h : k' = k0
    · subst h
      simp only [setKey, if_pos rfl, lookupD]
      split_ifs <;> rfl
    · simp only [setKey, if_neg h, lookupD]
      by_cases hk : k = k0
      · subst hk
        have hne : k ≠ k' := fun hkk => h hkk.symm
        simp [hne]
      · simp [hk, ih]

theorem getDl_setKey {K A : Type} [DecidableEq K] (k k' : K) (v : List A)
    (d : List (K × List A)) :
    getDl k (setKey k' v d) = if k = k' then v else getDl k d := by
  unfold getDl
  rw [lookupD_setKey]
  split_ifs <;> rfl

theorem getDl_insertApp {K A : Type} [DecidableEq K] (k k' : K) (x : A)
    (d : List (K × List A)) :
    getDl k (insertApp k' x d) = if k = k' then getDl k d ++ [x] else getDl k d := by
  unfold insertApp
  rw [getDl_setKey]
  split_ifs with h
  · rw [h]
  · rfl

theorem foldl_pick_spec (l : List BRow) (b : BRow) :
    (l.foldl pick b).sec ≤ b.sec ∧ (∀ x ∈ l, (l.foldl pick b).sec ≤ x.sec) ∧
      ∃ l₁ l₂, b :: l = l₁ ++ (l.foldl pick b) :: l₂ ∧
        ∀ x ∈ l₁, (l.foldl pick b).sec < x.sec := by
  induction l generalizing b with
  | nil =>
    exact ⟨le_refl _, by simp, [], [], rfl, by simp⟩
  | cons x t ih =>
    have hfold : (x :: t).foldl pick b = t.foldl pick (pick b x) := rfl
    rw [hfold]
    by_cases hx : x.sec < b.sec
    · have hbx : pick b x = x := by simp [pick, hx]
      rw [hbx]
      obtain ⟨h1, h2, l₁, l₂, hs, hf⟩ := ih x
      refine ⟨le_of_lt (lt_of_le_of_lt h1 hx), ?_, b :: l₁, l₂, ?_, ?_⟩
      · intro y hy
        rcases List.mem_cons.mp hy with hy | hy
        · subst hy; exact h1
        · exact h2 y hy
      · rw [List.cons_append, ← hs]
      · intro y hy
        rcases List.mem_cons.mp hy with hy | hy
        · subst hy
          exact lt_of_le_of_lt h1 hx
        · exact hf y hy
    · have hbx : pick b x = b := by simp [pick, hx]
      rw [hbx]
      obtain ⟨h1, h2, l₁, l₂, hs, hf⟩ := ih b
      have hbsec : b.sec ≤ x.sec := le_of_not_lt hx
      refine ⟨h1, ?_, ?_⟩
      · intro y hy
        rcases List.mem_cons.mp hy with hy | hy
        · subst hy; exact le_trans h1 hbsec
        · exact h2 y hy
      · cases l₁ with
        | nil =>
          simp only [List.nil_append] at hs
          have hb : t.foldl pick b = b := by
            injection hs with hhead _
            exact hhead.symm
          refine ⟨[], x :: t, ?_, by simp⟩
          rw [hb]
          rfl
        | cons c l₁' =>
          rw [List.cons_append] at hs
          injection hs with hhead htail
          have hbmem : (t.foldl pick b).sec < b.sec := by
            have := hf c (by simp)
            rw [← hhead] at this
            exact this
          refine ⟨b :: x :: l₁', l₂, ?_, ?_⟩
          · simp only [List.cons_append]
            rw [← htail]
          · intro y hy
            rcases List.mem_cons.mp hy with hy | hy
            · subst hy; exact hbmem
            · rcases List.mem_cons.mp hy with hy | hy
              · subst hy; exact lt_of_lt_of_le hbmem hbsec
              · exact hf y (by simp [hy])

theorem selectBest_spec (g : List BRow) (r : BRow) (h : selectBest g = some r) :
    (∀ x ∈ g, r.sec ≤ x.sec) ∧ ∃ l₁ l₂, g = l₁ ++ r :: l₂ ∧ ∀ x ∈ l₁, r.sec < x.sec := by
  cases g with
  | nil => simp [selectBest] at h
  | cons b t =>
    have hr : t.foldl pick b = r := by
      simpa [selectBest] using h
    obtain ⟨h1, h2, l₁, l₂, hs, hf⟩ := foldl_pick_spec t b
    rw [hr] at h1 h2 hs hf
    refine ⟨?_, l₁, l₂, hs, hf⟩
    intro x hx
    rcases List.mem_cons.mp hx with hx | hx
    · subst hx; exact h1
    · exact h2 x hx

theorem foldl_bestStep_filter (m : Nat) :
    ∀ (l : List ARow) (acc : List (String × ℚ)),
      l.foldl (bestStep m) acc = (l.filter (fun r => decide (r.N = m))).foldl (bestStep m) acc
  | [], _ => rfl
  | r :: t, acc => by
    by_cases h : r.N = m
    · have hd : decide (r.N = m) = true := decide_eq_true h
      simp only [List.filter_cons, hd, List.foldl_cons, if_true]
      exact foldl_bestStep_filter m t (bestStep m acc r)
    · have hd : decide (r.N = m) = false := decide_eq_false h
      have hstep : bestStep m acc r = acc := by simp [bestStep, h]
      simp only [List.filter_cons, hd, List.foldl_cons, if_false, hstep, Bool.false_eq_true]
      exact foldl_bestStep_filter m t acc

theorem foldl_append_eq : ∀ (l acc : List ARow), l.foldl (fun a r => a ++ [r]) acc = acc ++ l
  | [], acc => by simp
  | r :: t, acc => by
    rw [List.foldl_cons, foldl_append_eq t (acc ++ [r])]
    simp

theorem mapOpt_eq_none {α β : Type} (f : α → Option β) :
    ∀ (l : List α) (x : α), x ∈ l → f x = none → mapOpt f l = none
  | [], x, hx, _ => absurd hx (List.not_mem_nil x)
  | y :: t, x, hx, hfx => by
    rcases List.mem_cons.mp hx with hx | hx
    · subst hx
      simp [mapOpt, hfx]
    · unfold mapOpt
      cases hf : f y with
      | none => rfl
      | some v =>
        rw [mapOpt_eq_none f t x hx hfx]
        rfl

theorem keysF_filter_known (l : List BRow) :
    (l.filter knownB).filterMap (fun r => (patternNames r.pattern).map (fun p => (r.N, p)))
      = l.filterMap (fun r => (patternNames r.pattern).map (fun p => (r.N, p))) := by
  induction l with
  | nil => rfl
  | cons r t ih =>
    cases hp : patternNames r.pattern with
    | none =>
      have hk : knownB r = false := by simp [knownB, hp]
      simp [List.filter_cons, hk, List.filterMap_cons, hp, ih]
    | some q =>
      have hk : knownB r = true := by simp [knownB, hp]
      simp [List.filter_cons, hk, List.filterMap_cons, hp, ih]

theorem filter_known_subsume (l : List BRow) (q : BRow → Bool)
    (hq : ∀ r, q r = true → knownB r = true) :
    (l.filter knownB).filter q = l.filter q := by
  induction l with
  | nil => rfl
  | cons r t ih =>
    cases hk : knownB r with
    | true => simp [List.filter_cons, hk, ih]
    | false =>
      have hqr : q r = false := by
        cases hqr : q r with
        | false => rfl
        | true => rw [hq r hqr] at hk; cases hk
      simp [List.filter_cons, hk, hqr, ih]

theorem group_pred_known (n : Nat) (p : String) (r : BRow) :
    decide (r.N = n ∧ patternNames r.pattern = some p) = true → knownB r = true := by
  intro h
  rw [decide_eq_true_eq] at h
  simp [knownB, h.2]

theorem bfilter_filter_known (df : List BRow) :
    bfilter (df.filter knownB) = (bfilter df).filter knownB := by
  unfold bfilter
  rw [List.filter_comm]

theorem keysRaw_known (df : List BRow) : keysRaw (df.filter knownB) = keysRaw df := by
  unfold keysRaw
  rw [bfilter_filter_known, keysF_filter_known]

theorem bgroup_known (df : List BRow) (n : Nat) (p : String) :
    bgroup (df.filter knownB) n p = bgroup df n p := by
  unfold bgroup
  rw [bfilter_filter_known, filter_known_subsume _ _ (group_pred_known n p)]

theorem bestRows_known (df : List BRow) : bestRows (df.filter knownB) = bestRows df := by
  unfold bestRows groupKeys
  rw [keysRaw_known]
  apply List.filterMap_congr
  intro k _
  rw [bgroup_known]

theorem histVals_known (df : List BRow) (n : Nat) (p : String) :
    histVals (df.filter knownB) n p = histVals df n p := by
  unfold histVals
  rw [filter_known_subsume _ _ (group_pred_known n p)]

theorem patternNames_out (c : Nat) (hc : ¬ (c = 0 ∨ c = 1 ∨ c = 2 ∨ c = 3 ∨ c = 4 ∨ c = 5)) :
    patternNames c = none := by
  unfold patternNames
  split_ifs with h0 h1 h2 h3 h4 h5
  all_goals first
  | rfl
  | (exact absurd (by tauto) hc)

theorem uniqueFirst_spec :
    ∀ (l acc : List String), acc.Nodup →
      ∃ s, l.foldl (fun a x => if x ∈ a then a else a ++ [x]) acc = acc ++ s ∧
        s.Sublist l ∧ (acc ++ s).Nodup
  | [], acc, h => ⟨[], by simp, List.nil_sublist _, by simpa using h⟩
  | x :: t, acc, h => by
    by_cases hx : x ∈ acc
    · obtain ⟨s, h1, h2, h3⟩ := uniqueFirst_spec t acc h
      refine ⟨s, ?_, h2.cons x, h3⟩
      rw [List.foldl_cons, if_pos hx]
      exact h1
    · have hacc : (acc ++ [x]).Nodup := by
        simp [List.nodup_append, h, hx]
      obtain ⟨s, h1, h2, h3⟩ := uniqueFirst_spec t (acc ++ [x]) hacc
      refine ⟨x :: s, ?_, h2.cons₂ x, ?_⟩
      · rw [List.foldl_cons, if_neg hx, h1]
        simp
      · simpa using h3

theorem methodsOf_shape (df : List DRow) :
    (methodsOf df).Sublist (df.map fun r => r.Method) ∧ (methodsOf df).Nodup := by
  obtain ⟨s, h1, h2, h3⟩ := uniqueFirst_spec (df.map fun r => r.Method) [] List.nodup_nil
  have hu : methodsOf df = s := by
    unfold methodsOf uniqueFirst
    rw [h1]
    simp
  rw [hu]
  exact ⟨h2, by simpa using h3⟩

theorem flatPD_cons (t : Nat) (pg : String × List (Nat × ℚ)) (pd : List (String × List (Nat × ℚ))) :
    flatPD t (pg :: pd) = pg.2.map (fun y => (t, pg.1, y.1, y.2)) ++ flatPD t pd := by
  simp [flatPD]

theorem flattenDBT_cons (tp : Nat × List (String × List (Nat × ℚ)))
    (D : List (Nat × List (String × List (Nat × ℚ)))) :
    flattenDBT (tp :: D) = flatPD tp.1 tp.2 ++ flattenDBT D := by
  simp [flattenDBT, flatPD]

theorem flatPD_insertApp (t : Nat) (p : String) (x : Nat × ℚ) :
    ∀ pd, List.Perm (flatPD t (insertApp p x pd)) (flatPD t pd ++ [(t, p, x.1, x.2)])
  | [] => by
    have h : insertApp p x ([] : List (String × List (Nat × ℚ))) = [(p, [x])] := rfl
    rw [h]
    simp [flatPD]
  | (p', ys) :: rest => by
    by_cases h : p = p'
    · subst h
      have hins : insertApp p x ((p, ys) :: rest) = (p, ys ++ [x]) :: rest := by
        simp [insertApp, setKey, getDl, lookupD]
      rw [hins, flatPD_cons, flatPD_cons]
      simp only [List.map_append, List.map_cons, List.map_nil, List.append_assoc]
      exact List.Perm.append_left _ (List.perm_append_comm)
    · have hins : insertApp p x ((p', ys) :: rest) = (p', ys) :: insertApp p x rest := by
        simp [insertApp, setKey, getDl, lookupD, h]
      rw [hins, flatPD_cons, flatPD_cons]
      rw [List.append_assoc]
      exact List.Perm.append_left _ (flatPD_insertApp t p x rest)

theorem flattenDBT_dbtStep (r : ARow) :
    ∀ D, List.Perm (flattenDBT (dbtStep D r)) (flattenDBT D ++ [projA r])
  | [] => by
    have h : dbtStep [] r = [(r.threads, [(r.pattern, [(r.N, r.sec)])])] := rfl
    rw [h]
    simp [flattenDBT, flatPD, projA]
  | (t', pd) :: rest => by
    by_cases h : r.threads = t'
    · subst h
      have hstep : dbtStep ((r.threads, pd) :: rest) r
          = (r.threads, insertApp r.pattern (r.N, r.sec) pd) :: rest := by
        simp [dbtStep, setKey, getDl, lookupD]
      rw [hstep, flattenDBT_cons, flattenDBT_cons]
      have h1 := (flatPD_insertApp r.threads r.pattern (r.N, r.sec) pd).append_right
        (flattenDBT rest)
      refine h1.trans ?_
      rw [List.append_assoc, List.append_assoc]
      exact List.Perm.append_left _ (List.perm_append_comm)
    · have hstep : dbtStep ((t', pd) :: rest) r = (t', pd) :: dbtStep rest r := by
        simp [dbtStep, setKey, getDl, lookupD, h]
      rw [hstep, flattenDBT_cons, flattenDBT_cons]
      rw [List.append_assoc]
      exact List.Perm.append_left _ (flattenDBT_dbtStep r rest)

theorem flattenDBT_foldl :
    ∀ (l : List ARow) (D), List.Perm (flattenDBT (l.foldl dbtStep D))
      (flattenDBT D ++ l.map projA)
  | [], D => by simp
  | r :: t, D => by
    rw [List.foldl_cons]
    have h1 := flattenDBT_foldl t (dbtStep D r)
    have h2 := (flattenDBT_dbtStep r D).append_right (t.map projA)
    refine h1.trans (h2.trans ?_)
    rw [List.append_assoc]
    simp

theorem dataByThread_perm (data : List ARow) :
    List.Perm (flattenDBT (dataByThread data)) (data.map projA) := by
  have h := flattenDBT_foldl data []
  have h0 : flattenDBT [] = [] := rfl
  rw [h0, List.nil_append] at h
  exact h

theorem bucket2_dbtStep (t : Nat) (p : String) (D : List (Nat × List (String × List (Nat × ℚ))))
    (r : ARow) :
    bucket2 t p (dbtStep D r) =
      if r.threads = t ∧ r.pattern = p then bucket2 t p D ++ [(r.N, r.sec)]
      else bucket2 t p D := by
  unfold bucket2 dbtStep
  rw [getDl_setKey]
  by_cases ht : t = r.threads
  · rw [if_pos ht, getDl_insertApp, ht]
    by_cases hp : p = r.pattern
    · rw [if_pos hp, if_pos ⟨rfl, hp.symm⟩, hp]
    · rw [if_neg hp, if_neg (fun hc => hp hc.2.symm)]
  · rw [if_neg ht, if_neg (fun hc => ht hc.1.symm)]

theorem bucket2_foldl (t : Nat) (p : String) :
    ∀ (l : List ARow) (D),
      bucket2 t p (l.foldl dbtStep D) = bucket2 t p D ++
        (l.filter (fun r => decide (r.threads = t ∧ r.pattern = p))).map
          (fun r => (r.N, r.sec))
  | [], D => by simp
  | r :: l, D => by
    rw [List.foldl_cons, bucket2_foldl t p l (dbtStep D r), bucket2_dbtStep]
    by_cases h : r.threads = t ∧ r.pattern = p
    · rw [if_pos h]
      simp [List.filter_cons, h]
    · rw [if_neg h]
      simp [List.filter_cons, h]

theorem bucket2_dataByThread (t : Nat) (p : String) (data : List ARow) :
    bucket2 t p (dataByThread data) =
      (data.filter (fun r => decide (r.threads = t ∧ r.pattern = p))).map
        (fun r => (r.N, r.sec)) := by
  have h := bucket2_foldl t p data []
  have h0 : bucket2 t p [] = [] := rfl
  rw [h0, List.nil_append] at h
  exact h

theorem sortedDedupNat_perm (l l' : List Nat) (h : List.Perm l l') :
    List.insertionSort (· ≤ ·) l.dedup = List.insertionSort (· ≤ ·) l'.dedup := by
  have hs1 : List.Sorted (· ≤ ·) (List.insertionSort (· ≤ ·) l.dedup) :=
    List.sorted_insertionSort _ _
  have hs2 : List.Sorted (· ≤ ·) (List.insertionSort (· ≤ ·) l'.dedup) :=
    List.sorted_insertionSort _ _
  have hp : List.Perm (List.insertionSort (· ≤ ·) l.dedup)
      (List.insertionSort (· ≤ ·) l'.dedup) :=
    ((List.perm_insertionSort _ _).trans h.dedup).trans
      (List.perm_insertionSort _ _).symm
  exact List.eq_of_perm_of_sorted hp hs1 hs2

theorem sortedDedupStr_perm (l l' : List String) (h : List.Perm l l') :
    List.insertionSort strLeP l.dedup = List.insertionSort strLeP l'.dedup := by
  have hs1 : List.Sorted strLeP (List.insertionSort strLeP l.dedup) :=
    List.sorted_insertionSort _ _
  have hs2 : List.Sorted strLeP (List.insertionSort strLeP l'.dedup) :=
    List.sorted_insertionSort _ _
  have hp : List.Perm (List.insertionSort strLeP l.dedup)
      (List.insertionSort strLeP l'.dedup) :=
    ((List.perm_insertionSort _ _).trans h.dedup).trans
      (List.perm_insertionSort _ _).symm
  exact List.eq_of_perm_of_sorted hp hs1 hs2

/-- C1: every row of the best-times summary selects a (value, record) pair
from its own group: the selected record is a member of that exact group, its
sec and version are what the summary row carries, and its sec is less than or
equal to the sec of every record of the group (minimality). -/
theorem c1_best_by_minimal_member (df : List BRow) (row : BestRow)
    (h : row ∈ bestRows df) :
    ∃ r ∈ bgroup df row.N row.pattern_name,
      row.best_time_sec = r.sec ∧ row.best_version = r.version ∧
      ∀ x ∈ bgroup df row.N row.pattern_name, r.sec ≤ x.sec := by
  unfold bestRows at h
  rw [List.mem_filterMap] at h
  obtain ⟨k, _, hmap⟩ := h
  rw [Option.map_eq_some'] at hmap
  obtain ⟨r, hsel, hrow⟩ := hmap
  obtain ⟨hmin, l₁, l₂, hsplit, _⟩ := selectBest_spec _ r hsel
  have hN : row.N = k.1 := by rw [← hrow]
  have hP : row.pattern_name = k.2 := by rw [← hrow]
  have hsec : row.best_time_sec = r.sec := by rw [← hrow]
  have hver : row.best_version = r.version := by rw [← hrow]
  have hrmem : r ∈ bgroup df k.1 k.2 := by
    rw [hsplit]
    exact List.mem_append.mpr (Or.inr (List.mem_cons_self r l₂))
  rw [hN, hP]
  exact ⟨r, hrmem, hsec, hver, hmin⟩

/-- C1 witness: the theorem applied to the concrete input c1df, whose summary
row is computed by the kernel. -/
theorem c1_best_by_minimal_member_witness :
    c1row ∈ bestRows c1df ∧
      ∃ r ∈ bgroup c1df c1row.N c1row.pattern_name,
        c1row.best_time_sec = r.sec ∧ c1row.best_version = r.version ∧
        ∀ x ∈ bgroup c1df c1row.N c1row.pattern_name, r.sec ≤ x.sec :=
  ⟨by decide, c1_best_by_minimal_member c1df c1row (by decide)⟩

/-- C2: the best-time selection is deterministic and returns the
first-encountered record among ties: the selected record splits the group so
that every earlier record has a strictly greater sec (so a record tied with
it can only come later), and on a two-record group the second record is
returned only when strictly smaller. -/
theorem c2_tie_first_encountered (g : List BRow) (r : BRow)
    (h : selectBest g = some r) :
    (∃ l₁ l₂, g = l₁ ++ r :: l₂ ∧ ∀ x ∈ l₁, r.sec < x.sec) ∧
      (∀ x ∈ g, r.sec ≤ x.sec) ∧
      ∀ r₂ : BRow, selectBest [r, r₂] = some (if r₂.sec < r.sec then r₂ else r) := by
  obtain ⟨hmin, l₁, l₂, hsplit, hfirst⟩ := selectBest_spec g r h
  exact ⟨⟨l₁, l₂, hsplit, hfirst⟩, hmin, fun r₂ => rfl⟩

/-- C2 witness: the tie scenario of the spec, two records with elapsed 0.5
each; the selection returns the first-encountered one. -/
theorem c2_tie_first_encountered_witness :
    selectBest c2g = some c2r ∧
      ((∃ l₁ l₂, c2g = l₁ ++ c2r :: l₂ ∧ ∀ x ∈ l₁, c2r.sec < x.sec) ∧
        (∀ x ∈ c2g, c2r.sec ≤ x.sec) ∧
        ∀ r₂ : BRow, selectBest [c2r, r₂] = some (if r₂.sec < c2r.sec then r₂ else c2r)) :=
  ⟨by decide, c2_tie_first_encountered c2g c2r (by decide)⟩

/-- C3 counterexample: grouping via the N-keyed dictionaries of
generate_report (multi_thread_data) loses records: with two records sharing
(threads, pattern, N), flattening the grouping is not a permutation of the
original record multiset. -/
theorem c3_group_flatten_counterexample :
    ¬ List.Perm (flattenDBT (multiThreadData c3data)) (c3data.map projA) := by
  decide

/-- C3 (amended): for the list-based grouping data_by_thread of
plot_results.py, flattening all groups yields exactly the original record
multiset, and each group is the filter of the records with that key in their
original encounter order; the N-keyed dictionaries of generate_report instead
keep only the last record per (threads, pattern, N). -/
theorem c3_group_flatten_amended (data : List ARow) :
    List.Perm (flattenDBT (dataByThread data)) (data.map projA) ∧
      ∀ t p, bucket2 t p (dataByThread data) =
        (data.filter (fun r => decide (r.threads = t ∧ r.pattern = p))).map
          (fun r => (r.N, r.sec)) :=
  ⟨dataByThread_perm data, fun t p => bucket2_dataByThread t p data⟩

/-- C4: every series emitted by get_datasets has the same length as the
shared axis, and the entry at each index is exactly the lookup of the axis
value at that index in the series dict: the explicit absent marker none when
no record matches, never dropped and never defaulted to zero. -/
theorem c4_axis_series_aligned (pats : List String) (ns : List Nat)
    (src : List (String × List (Nat × ℚ))) (p : String) (pts : List (Option ℚ))
    (h : (p, pts) ∈ getDatasets pats ns src) :
    pts.length = ns.length ∧
      ∃ inner, lookupD p src = some inner ∧ pts = ns.map (fun n => lookupD n inner) := by
  unfold getDatasets at h
  rw [List.mem_filterMap] at h
  obtain ⟨q, _, hmap⟩ := h
  rw [Option.map_eq_some'] at hmap
  obtain ⟨inner, hinner, heq⟩ := hmap
  have hqp : q = p := congrArg Prod.fst heq
  have hpts : pts = ns.map (fun n => lookupD n inner) := (congrArg Prod.snd heq).symm
  subst hqp
  refine ⟨?_, inner, hinner, hpts⟩
  rw [hpts]
  simp

/-- C4 witness: a series over axis [4, 8] with a record only at 4; the
emitted series is [some 1, none], aligned and with the absent marker. -/
theorem c4_axis_series_aligned_witness :
    (("p", [some (1 : ℚ), none]) ∈ getDatasets ["p"] [4, 8] [("p", [(4, 1)])]) ∧
      ([some (1 : ℚ), none].length = [4, 8].length ∧
        ∃ inner, lookupD "p" [("p", [(4, (1 : ℚ))])] = some inner ∧
          [some (1 : ℚ), none] = [4, 8].map (fun n => lookupD n inner)) :=
  ⟨by decide, c4_axis_series_aligned ["p"] [4, 8] [("p", [(4, 1)])] "p"
    [some 1, none] (by decide)⟩

/-- C5 counterexample: on a dataframe whose only method has rows at threads 2
and 4 of the largest size but no baseline threads == 1 row, the text-report
computation does not produce an output omitting that pair: it fails
altogether (the .values[0] lookup raises IndexError, modelled none). -/
theorem c5_missing_baseline_counterexample : textReportM1 c5df = none := by
  decide

/-- C5 (amended): a (method, size) pair lacking a baseline record at the
largest size makes the report computation fail as a whole (none) rather than
omitting the pair and continuing; no synthesized zero or NaN entry is ever
produced for it. -/
theorem c5_missing_baseline_aborts (df : List DRow) (m : String)
    (hm : m ∈ methodsOf df) (hb : tsValues df (maxSizeOf df) m 1 = []) :
    textReportM1 df = none := by
  unfold textReportM1
  apply mapOpt_eq_none _ _ m hm
  unfold method1Line
  rw [hb]
  rfl

/-- C5 witness: the amended theorem applied to the concrete baseline-free
dataframe. -/
theorem c5_missing_baseline_aborts_witness :
    ("m" ∈ methodsOf c5df) ∧ tsValues c5df (maxSizeOf c5df) "m" 1 = [] ∧
      textReportM1 c5df = none :=
  ⟨by decide, by decide, c5_missing_baseline_aborts c5df "m" (by decide) (by decide)⟩

/-- C6 counterexample: the loading loop keeps a record whose elapsed value is
zero, so it is not the case that every record surviving loading has a
strictly positive elapsed value. -/
theorem c6_positivity_counterexample : ¬ (∀ r ∈ loadData c6data, 0 < r.sec) := by
  decide

/-- C6 (amended): the CSV loading loop performs no positivity check at all,
every parsed record is retained unchanged, and a record with elapsed zero
reaches aggregation and becomes the best time of its pattern; no
InvalidMeasurementError mechanism exists in the scripts. -/
theorem c6_no_positivity_filter :
    (∀ rows : List ARow, loadData rows = rows) ∧ bestTimesA c6data = [("p", 0)] :=
  ⟨fun rows => foldl_append_eq rows [], by decide⟩

/-- C7 counterexample: the series labels of the assignment1/d report are the
methods in encounter order, which on a dataframe listing method b before
method a is not lexicographically sorted. -/
theorem c7_ordering_counterexample : ¬ List.Sorted strLeP (methodsOf c7df) := by
  decide

/-- C7 (amended): generate_report orders its pattern labels lexicographically
and the shared axis ascending, the group keys and the best-times table of
plot_best_time are sorted (the table by (N, best time)), while the series
labels of the assignment1/d report follow first-encounter order: a
duplicate-free sublist of the Method column, not a lexicographic sort. -/
theorem c7_ordering_amended :
    (∀ data : List ARow,
        List.Sorted (· ≤ ·) (allNs data) ∧ List.Sorted strLeP (patternsOf data)) ∧
      (∀ df : List BRow,
        List.Sorted keyLe (groupKeys df) ∧ List.Sorted rowLe (bestTimesSorted df)) ∧
      (∀ df : List DRow,
        (methodsOf df).Sublist (df.map fun r => r.Method) ∧ (methodsOf df).Nodup) :=
  ⟨fun _ => ⟨List.sorted_insertionSort _ _, List.sorted_insertionSort _ _⟩,
    fun _ => ⟨List.sorted_insertionSort _ _, List.sorted_insertionSort _ _⟩,
    fun df => methodsOf_shape df⟩

/-- C8 counterexample: the pipeline output is not invariant under reordering
of the input records: with two records sharing (pattern, N, threads) but
different times, the last write wins in the N-keyed dict, so the two
orderings give different chart datasets. -/
theorem c8_reorder_counterexample :
    List.Perm c8a c8b ∧ singleThreadDatasets c8a ≠ singleThreadDatasets c8b := by
  decide

/-- C8 (amended): running the pipeline twice on identical input gives
identical output (it is a pure function), and the axis, pattern-label and
thread-count lists are invariant under input reordering; the series values
themselves are not reorder-invariant when duplicate-key records exist. -/
theorem c8_determinism_amended :
    (∀ data : List ARow, singleThreadDatasets data = singleThreadDatasets data) ∧
      ∀ data data' : List ARow, List.Perm data data' →
        allNs data = allNs data' ∧ patternsOf data = patternsOf data' ∧
          threadCounts data = threadCounts data' := by
  refine ⟨fun _ => rfl, fun data data' h => ⟨?_, ?_, ?_⟩⟩
  · exact sortedDedupNat_perm _ _ (h.map _)
  · exact sortedDedupStr_perm _ _ (h.map _)
  · exact sortedDedupNat_perm _ _ ((h.filter _).map _)

/-- C8 witness: the invariance part applied to a concrete reordering. -/
theorem c8_determinism_amended_witness :
    List.Perm c8w1 c8w2 ∧
      (allNs c8w1 = allNs c8w2 ∧ patternsOf c8w1 = patternsOf c8w2 ∧
        threadCounts c8w1 = threadCounts c8w2) :=
  ⟨by decide, c8_determinism_amended.2 c8w1 c8w2 (by decide)⟩

/-- C9: a record whose pattern code is outside the fixed mapping is mapped to
a missing name and silently excluded: dropping all unknown-code rows changes
neither the best-times summary (raw or sorted) nor the histogram value
selections, and every code outside 0..5 indeed maps to none. -/
theorem c9_unknown_pattern_excluded (df : List BRow) :
    bestRows (df.filter knownB) = bestRows df ∧
      bestTimesSorted (df.filter knownB) = bestTimesSorted df ∧
      (∀ n p, histVals (df.filter knownB) n p = histVals df n p) ∧
      ∀ c : Nat, ¬ (c = 0 ∨ c = 1 ∨ c = 2 ∨ c = 3 ∨ c = 4 ∨ c = 5) →
        patternNames c = none := by
  refine ⟨bestRows_known df, ?_, fun n p => histVals_known df n p,
    fun c hc => patternNames_out c hc⟩
  unfold bestTimesSorted
  rw [bestRows_known]

/-- C9 witness: the theorem applied to a dataframe holding the unknown code 9. -/
theorem c9_unknown_pattern_excluded_witness :
    bestRows (c9df.filter knownB) = bestRows c9df ∧ patternNames 9 = none :=
  ⟨(c9_unknown_pattern_excluded c9df).1,
    (c9_unknown_pattern_excluded c9df).2.2.2 9 (by decide)⟩

/-- C10: both assignment1/a best-time summaries are computed only over the
records at a single matrix size: the fold ignores every record at another
size (filtering to the target size changes nothing), the target being the
maximum observed size in generate_report and the hardcoded 2048 in
plot_results. -/
theorem c10_best_time_single_size :
    (∀ (m : Nat) (data : List ARow),
        bestAt m data = bestAt m (data.filter (fun r => decide (r.N = m)))) ∧
      (∀ data : List ARow, bestTimesA data = bestAt (maxN data) data) ∧
      (∀ data : List ARow, bestTimesP data = bestAt 2048 data) :=
  ⟨fun m data => foldl_bestStep_filter m data [], fun _ => rfl, fun _ => rfl⟩

end HPC
